import Mathlib

/-!
Verification development for the scriptcat permission-gated cross-context
network proxy.  The definitions below are shallow embeddings of the
TypeScript source:

  * `src/app/service/service_worker/permission_verify.ts` (PermissionVerify)
  * the GM API service file (`getConnectMatched`, `setReqId`, `setReqDone`,
    `buildDNRRule`, the `onHeadersReceived` listener, `loadendCleanUp`,
    `GM_xmlhttpRequest`)
  * `src/pkg/utils/xhr_data.ts` (`dataEncode` / `dataDecode`)
  * `src/app/service/service_worker/gm_xhr_api.ts` and
    `src/pkg/utils/xhr_api.ts` (`chunkUint8`, chunked transport)

JS `Map` objects are modelled as association lists; only `get` / `set` /
`delete` are used by the code under study, so the embedding provides exactly
those operations.
-/

namespace SC

/-- JS `Map.get`: first association for the key, if any. -/
def mget {κ α : Type} [DecidableEq κ] : List (κ × α) → κ → Option α
  | [], _ => none
  | (k', v) :: rest, k => if k' = k then some v else mget rest k

/-- JS `Map.delete`: remove the association(s) for the key. -/
def mdel {κ α : Type} [DecidableEq κ] : List (κ × α) → κ → List (κ × α)
  | [], _ => []
  | (k', v) :: rest, k => if k' = k then mdel rest k else (k', v) :: mdel rest k

/-- JS `Map.set`: insert or overwrite the association for the key.
Observationally (w.r.t. `mget`) identical to in-place update. -/
def mset {κ α : Type} [DecidableEq κ] (m : List (κ × α)) (k : κ) (v : α) : List (κ × α) :=
  (k, v) :: mdel m k

theorem mget_mdel_self {κ α : Type} [DecidableEq κ] (m : List (κ × α)) (k : κ) :
    mget (mdel m k) k = none := by
  induction m with
  | nil => simp [mdel, mget]
  | cons p rest ih =>
    obtain ⟨k', v⟩ := p
    by_cases h : k' = k <;> simp [mdel, mget, h, ih]

theorem mget_mdel_ne {κ α : Type} [DecidableEq κ] (m : List (κ × α)) (k k' : κ) (h : k' ≠ k) :
    mget (mdel m k) k' = mget m k' := by
  induction m with
  | nil => simp [mdel]
  | cons p rest ih =>
    obtain ⟨k'', v⟩ := p
    by_cases h2 : k'' = k
    · subst h2
      have hk : k'' ≠ k' := fun hh => h (hh ▸ rfl)
      simp [mdel, mget, hk, ih]
    · by_cases h3 : k'' = k'
      · simp [mdel, mget, h2, h3, h]
      · simp [mdel, mget, h2, h3, ih]

theorem mget_mset_self {κ α : Type} [DecidableEq κ] (m : List (κ × α)) (k : κ) (v : α) :
    mget (mset m k v) k = some v := by
  simp [mset, mget]

theorem mget_mset_ne {κ α : Type} [DecidableEq κ] (m : List (κ × α)) (k k' : κ) (v : α)
    (h : k' ≠ k) : mget (mset m k v) k' = mget m k' := by
  simp [mset, mget, Ne.symm h, mget_mdel_ne m k k' h]

theorem mdel_map_fst_sublist {κ α : Type} [DecidableEq κ] (m : List (κ × α)) (k : κ) :
    ((mdel m k).map Prod.fst).Sublist (m.map Prod.fst) := by
  induction m with
  | nil => simp [mdel]
  | cons p rest ih =>
    obtain ⟨k', v⟩ := p
    by_cases h : k' = k
    · simp only [mdel, if_pos h]
      exact ih.trans (List.sublist_cons_self _ _)
    · simp only [mdel, if_neg h, List.map_cons]
      exact ih.cons₂ k'

/-- JS `String.prototype.toLowerCase`, as a character-wise map. -/
def strToLower (s : String) : String :=
  String.mk (s.data.map Char.toLower)

/-- JS `String.prototype.endsWith`: the character sequence of `post` is a
suffix of that of `s`. -/
def strEndsWith (s post : String) : Bool :=
  (post.data.length ≤ s.data.length)
    && (s.data.drop (s.data.length - post.data.length) == post.data)

/-! ## C1: PermissionVerify.verify (permission_verify.ts, lines 111-141)

`verify(request, api)` scans `request.script.metadata.grant` for a name that
equals the requested api name, one of its aliases, or one of its links.  On
a hit it runs the confirm pipeline (when the api declares one); otherwise it
throws `"permission not requested"` (the GrantMissing error).  A missing
grant list throws the distinct error `"grant is undefined"`. -/

/-- Errors the confirm pipeline (`PermissionVerify.confirm`) can produce:
`"permission denied"` (cached rejection), `"permission not allowed"`
(fresh user rejection), `"permission confirm timeout"`. -/
inductive ConfirmErr where
  | permissionDenied
  | notAllowed
  | confirmTimeout
deriving DecidableEq, Repr

/-- Errors thrown by `verify` itself. -/
inductive VerifyErr where
  | grantUndefined
  | grantMissing
  | confirmErr (e : ConfirmErr)
deriving DecidableEq, Repr

/-- `ApiParam` from permission_verify.ts: `default`, `alias`, `link`
(string-or-array flattened to a list), and whether a `confirm` callback is
declared. -/
structure ApiParam where
  isDefault : Bool
  aliases : List String
  links : List String
  hasConfirm : Bool

/-- One iteration of the grant-scan loop in `verify`. -/
def grantMatches (p : ApiParam) (apiName grantName : String) : Bool :=
  grantName == apiName || p.aliases.contains grantName || p.links.contains grantName

/-- `PermissionVerify.verify`.  `confirmResult` is the outcome of the confirm
pipeline (`pushConfirmQueue` / `confirm`), consulted only when a grant
matches and the api declares a confirm callback.  The second component
records whether the confirm pipeline was entered (it is entered strictly
after the grant scan succeeds, so a GrantMissing failure never reaches it). -/
def verify (p : ApiParam) (apiName : String) (grant : Option (List String))
    (confirmResult : Except ConfirmErr Bool) : Except VerifyErr Bool × Bool :=
  if p.isDefault then (Except.ok true, false)
  else
    match grant with
    | none => (Except.error VerifyErr.grantUndefined, false)
    | some gs =>
      if gs.any (fun g => grantMatches p apiName g) then
        if p.hasConfirm then
          match confirmResult with
          | Except.ok b => (Except.ok b, true)
          | Except.error e => (Except.error (VerifyErr.confirmErr e), true)
        else (Except.ok true, false)
      else (Except.error VerifyErr.grantMissing, false)

/-! ## C2: request correlation (`setReqId` / `setReqDone`) -/

/-- `TXhrReqObject`: a pending correlation entry registered under the
sanitized URL.  (`resolve` only signals the per-URL task queue and does not
affect the maps, so it is not modelled.) -/
structure TXhrReqObject where
  reqUrl : String
  markerId : String
  startTime : Nat
deriving DecidableEq, Repr

/-- The two correlator maps: `xhrReqEntries` (sanitized URL to pending
entry) and `scXhrRequests` (the bidirectional markerId/requestId map). -/
structure CorrState where
  xhrReqEntries : List (String × TXhrReqObject)
  scXhrRequests : List (String × String)
deriving Repr

/-- `setReqDone`: discard the pending entry for `stdUrl`. -/
def setReqDone (s : CorrState) (stdUrl : String) : CorrState :=
  { s with xhrReqEntries := mdel s.xhrReqEntries stdUrl }

/-- `setReqId(reqId, url, timeStamp)`: look up the pending entry under the
sanitized URL; on URL mismatch, a non-positive/absent start time, a
timestamp not strictly after the start, or a delta above 400 ms, discard
without binding; otherwise store `markerId ↦ reqId` and `reqId ↦ markerId`
and discard the entry.  `sanitize` abstracts `urlSanitize`. -/
def setReqId (sanitize : String → String) (s : CorrState) (reqId url : String)
    (timeStamp : Nat) : CorrState :=
  let stdUrl := sanitize url
  match mget s.xhrReqEntries stdUrl with
  | none => s
  | some e =>
    if e.reqUrl ≠ url then setReqDone s stdUrl
    else if e.startTime = 0 ∨ ¬ e.startTime < timeStamp then setReqDone s stdUrl
    else if 400 < timeStamp - e.startTime then setReqDone s stdUrl
    else
      let sc2 := mset (mset s.scXhrRequests e.markerId reqId) reqId e.markerId
      setReqDone { s with scXhrRequests := sc2 } stdUrl


/-- Claim C1: if no grant name matches the requested capability (neither by
name, alias, nor link), `verify` fails with GrantMissing and the confirm
pipeline is never entered (no confirmation is enqueued or shown); if some
grant name matches, `verify` never fails with GrantMissing. -/
theorem C1_verify_grantMissing (p : ApiParam) (apiName : String) (gs : List String)
    (cr : Except ConfirmErr Bool) (hdef : p.isDefault = false) :
    ((∀ g ∈ gs, grantMatches p apiName g = false) →
        verify p apiName (some gs) cr = (Except.error VerifyErr.grantMissing, false)) ∧
    ((∃ g ∈ gs, grantMatches p apiName g = true) →
        (verify p apiName (some gs) cr).1 ≠ Except.error VerifyErr.grantMissing) := by
  constructor
  · intro hall
    have hany : gs.any (fun g => grantMatches p apiName g) = false := by
      simp only [List.any_eq_false]
      intro g hg
      simp [hall g hg]
    simp [verify, hdef, hany]
  · rintro ⟨g, hg, hm⟩
    have hany : gs.any (fun g => grantMatches p apiName g) = true :=
      List.any_eq_true.mpr ⟨g, hg, by simp [hm]⟩
    cases hc : p.hasConfirm <;> cases cr <;> simp [verify, hdef, hany, hc]

/-- Witness for C1 at a concrete input: a script granting only
`GM_getValue` calling `GM_xmlhttpRequest` (no alias/link covers it). -/
theorem C1_verify_grantMissing_witness :
    verify ⟨false, ["GM.xmlHttpRequest"], [], true⟩ "GM_xmlhttpRequest"
        (some ["GM_getValue"]) (Except.ok true)
      = (Except.error VerifyErr.grantMissing, false) :=
  (C1_verify_grantMissing ⟨false, ["GM.xmlHttpRequest"], [], true⟩ "GM_xmlhttpRequest"
    ["GM_getValue"] (Except.ok true) rfl).1 (by decide)

/-- Claim C2: for a pending entry under the sanitized URL with a positive
start time and fresh marker/request ids, `setReqId` creates the
bidirectional binding iff the event URL equals the stored URL, the
timestamp is strictly after the start time, and the delta is at most
400 ms; in every other case the maps of bindings are unchanged; in all
cases the pending entry is discarded and key-uniqueness of the pending map
is preserved. -/
theorem C2_setReqId_binding (sanitize : String → String) (s : CorrState)
    (reqId url : String) (ts : Nat) (e : TXhrReqObject)
    (hent : mget s.xhrReqEntries (sanitize url) = some e)
    (hpos : 0 < e.startTime)
    (hm : mget s.scXhrRequests e.markerId = none)
    (hne : e.markerId ≠ reqId) :
    mget (setReqId sanitize s reqId url ts).xhrReqEntries (sanitize url) = none ∧
    ((mget (setReqId sanitize s reqId url ts).scXhrRequests e.markerId = some reqId ∧
      mget (setReqId sanitize s reqId url ts).scXhrRequests reqId = some e.markerId)
        ↔ (e.reqUrl = url ∧ e.startTime < ts ∧ ts - e.startTime ≤ 400)) ∧
    (¬ (e.reqUrl = url ∧ e.startTime < ts ∧ ts - e.startTime ≤ 400) →
        (setReqId sanitize s reqId url ts).scXhrRequests = s.scXhrRequests) ∧
    ((s.xhrReqEntries.map Prod.fst).Nodup →
        ((setReqId sanitize s reqId url ts).xhrReqEntries.map Prod.fst).Nodup) := by
  have hnodup : ∀ s' : CorrState, (s.xhrReqEntries.map Prod.fst).Nodup →
      s'.xhrReqEntries = mdel s.xhrReqEntries (sanitize url) →
      (s'.xhrReqEntries.map Prod.fst).Nodup := by
    intro s' hnd h
    rw [h]
    exact hnd.sublist (mdel_map_fst_sublist _ _)
  by_cases hurl : e.reqUrl = url
  · by_cases hts : e.startTime < ts
    · have hnz : ¬ (e.startTime = 0 ∨ ¬ e.startTime < ts) := by
        push_neg
        exact ⟨Nat.pos_iff_ne_zero.mp hpos, hts⟩
      have hnz2 : ¬ (e.startTime = 0 ∨ ts ≤ e.startTime) := by
        push_neg
        exact ⟨Nat.pos_iff_ne_zero.mp hpos, hts⟩
      by_cases hdelta : 400 < ts - e.startTime
      · -- delta too large: discard without binding
        have hdef : setReqId sanitize s reqId url ts = setReqDone s (sanitize url) := by
          simp [setReqId, hent, hurl, hnz, hnz2, hdelta]
        rw [hdef]
        refine ⟨mget_mdel_self _ _, ?_, fun _ => rfl, fun hnd => hnodup _ hnd rfl⟩
        simp only [setReqDone]
        constructor
        · rintro ⟨h1, _⟩
          rw [hm] at h1
          exact absurd h1 (by simp)
        · rintro ⟨_, _, h3⟩
          omega
      · -- all checks pass: bind
        have hdef : setReqId sanitize s reqId url ts =
            setReqDone { s with scXhrRequests := mset (mset s.scXhrRequests e.markerId reqId) reqId e.markerId } (sanitize url) := by
          simp [setReqId, hent, hurl, hnz, hnz2, hdelta]
        rw [hdef]
        refine ⟨mget_mdel_self _ _, ?_, ?_, fun hnd => hnodup _ hnd rfl⟩
        · simp only [setReqDone]
          constructor
          · rintro _
            exact ⟨hurl, hts, by omega⟩
          · rintro _
            constructor
            · rw [mget_mset_ne _ _ _ _ hne, mget_mset_self]
            · rw [mget_mset_self]
        · intro hcon
          exact absurd ⟨hurl, hts, by omega⟩ hcon
    · -- timestamp not strictly after start: discard
      have hdef : setReqId sanitize s reqId url ts = setReqDone s (sanitize url) := by
        simp [setReqId, hent, hurl, hts]
      rw [hdef]
      refine ⟨mget_mdel_self _ _, ?_, fun _ => rfl, fun hnd => hnodup _ hnd rfl⟩
      simp only [setReqDone]
      constructor
      · rintro ⟨h1, _⟩
        rw [hm] at h1
        exact absurd h1 (by simp)
      · rintro ⟨_, h2, _⟩
        exact absurd h2 hts
  · -- URL mismatch: discard
    have hdef : setReqId sanitize s reqId url ts = setReqDone s (sanitize url) := by
      simp [setReqId, hent, hurl]
    rw [hdef]
    refine ⟨mget_mdel_self _ _, ?_, fun _ => rfl, fun hnd => hnodup _ hnd rfl⟩
    simp only [setReqDone]
    constructor
    · rintro ⟨h1, _⟩
      rw [hm] at h1
      exact absurd h1 (by simp)
    · rintro ⟨h1, _⟩
      exact absurd h1 hurl

/-- Witness for C2 at a concrete state: one pending entry, a matching event
2 ms after the start, fresh ids. -/
theorem C2_setReqId_binding_witness :
    mget (setReqId (fun u => u)
        ⟨[("https://x.test/", ⟨"https://x.test/", "MARKER::a", 1000⟩)], []⟩
        "77" "https://x.test/" 1002).xhrReqEntries "https://x.test/" = none ∧
    ((mget (setReqId (fun u => u)
        ⟨[("https://x.test/", ⟨"https://x.test/", "MARKER::a", 1000⟩)], []⟩
        "77" "https://x.test/" 1002).scXhrRequests "MARKER::a" = some "77" ∧
      mget (setReqId (fun u => u)
        ⟨[("https://x.test/", ⟨"https://x.test/", "MARKER::a", 1000⟩)], []⟩
        "77" "https://x.test/" 1002).scXhrRequests "77" = some "MARKER::a")
        ↔ ("https://x.test/" = "https://x.test/" ∧ 1000 < 1002 ∧ 1002 - 1000 ≤ 400)) ∧
    (¬ ("https://x.test/" = "https://x.test/" ∧ 1000 < 1002 ∧ 1002 - 1000 ≤ 400) →
        (setReqId (fun u => u)
          ⟨[("https://x.test/", ⟨"https://x.test/", "MARKER::a", 1000⟩)], []⟩
          "77" "https://x.test/" 1002).scXhrRequests = []) ∧
    ((([("https://x.test/",
          (⟨"https://x.test/", "MARKER::a", 1000⟩ : TXhrReqObject))]).map Prod.fst).Nodup →
        (((setReqId (fun u => u)
          ⟨[("https://x.test/", ⟨"https://x.test/", "MARKER::a", 1000⟩)], []⟩
          "77" "https://x.test/" 1002).xhrReqEntries).map Prod.fst).Nodup) :=
  C2_setReqId_binding (fun u => u)
    ⟨[("https://x.test/", ⟨"https://x.test/", "MARKER::a", 1000⟩)], []⟩
    "77" "https://x.test/" 1002 ⟨"https://x.test/", "MARKER::a", 1000⟩
    (by decide) (by decide) (by decide) (by decide)


/-! ## C3: transport codec (`dataEncode` / `dataDecode`, xhr_data.ts)

The codec is modelled over the value shapes named by the round-trip claim:
strings, `null`, `undefined`, JSON-safe plain objects, the eleven typed
numeric array kinds, and `URLSearchParams`.  Platform serialization
primitives are modelled by the data they carry: base64 text by the byte
sequence it encodes (`uint8ToBase64` / `base64ToUint8` are mutually inverse
on that data), `JSON.stringify` text by its parse tree, and a
`URLSearchParams` object by its canonical serialization string (the code
stores `${kData}` and re-parses it).  A typed array is modelled as its
underlying buffer plus the view's byte offset and byte length, exactly the
data `dataEncode` reads (`kData.buffer`, or the view itself for
`Uint8Array`). -/

inductive TypedKind where
  | int8 | uint8 | uint8Clamped | int16 | uint16 | int32 | uint32
  | float32 | float64 | bigint64 | biguint64
deriving DecidableEq, Repr

/-- Element size in bytes of each typed-array kind. -/
def TypedKind.elemSize : TypedKind → Nat
  | .int8 => 1
  | .uint8 => 1
  | .uint8Clamped => 1
  | .int16 => 2
  | .uint16 => 2
  | .int32 => 4
  | .uint32 => 4
  | .float32 => 4
  | .float64 => 8
  | .bigint64 => 8
  | .biguint64 => 8

/-- `typedArrayTypesText`: the constructor name used as the type tag. -/
def TypedKind.tagName : TypedKind → String
  | .int8 => "Int8Array"
  | .uint8 => "Uint8Array"
  | .uint8Clamped => "Uint8ClampedArray"
  | .int16 => "Int16Array"
  | .uint16 => "Uint16Array"
  | .int32 => "Int32Array"
  | .uint32 => "Uint32Array"
  | .float32 => "Float32Array"
  | .float64 => "Float64Array"
  | .bigint64 => "BigInt64Array"
  | .biguint64 => "BigUint64Array"

/-- `typedArrayTypes`, in source order. -/
def typedKinds : List TypedKind :=
  [.int8, .uint8, .uint8Clamped, .int16, .uint16, .int32, .uint32,
   .float32, .float64, .bigint64, .biguint64]

/-- `typedArrayTypesText.indexOf` followed by `typedArrayTypes[idx]`. -/
def kindOfTag (t : String) : Option TypedKind :=
  typedKinds.find? (fun k => k.tagName == t)

/-- JSON parse trees, standing for the `JSON.stringify` text of a JSON-safe
plain object (integer numerals suffice for the claims proved here). -/
inductive JsonVal where
  | jnull
  | jbool (b : Bool)
  | jnum (n : Int)
  | jstr (s : String)
  | jarr (xs : List JsonVal)
  | jobj (fields : List (String × JsonVal))

/-- A typed-array view: the raw bytes of its `ArrayBuffer`, and the view's
`byteOffset` / `byteLength` into it. -/
structure TypedArrayVal where
  kind : TypedKind
  buffer : List Nat
  byteOffset : Nat
  byteLength : Nat
deriving Repr

/-- Basic well-formedness every real typed-array view satisfies. -/
def TypedArrayVal.wf (t : TypedArrayVal) : Prop :=
  t.byteOffset + t.byteLength ≤ t.buffer.length ∧
  t.byteOffset % t.kind.elemSize = 0 ∧
  t.byteLength % t.kind.elemSize = 0

/-- The bytes visible through the view. -/
def viewBytes (t : TypedArrayVal) : List Nat :=
  (t.buffer.drop t.byteOffset).take t.byteLength

/-- The value shapes quantified over by the round-trip claim. -/
inductive JSValue where
  | vstr (s : String)
  | vnull
  | vundefined
  | vobject (j : JsonVal)
  | vtyped (t : TypedArrayVal)
  | vparams (s : String)

/-- Envelope payload (`extData.m`). -/
inductive Payload where
  | pNone
  | pStr (s : String)
  | pBytes (bs : List Nat)
  | pJson (j : JsonVal)

/-- The envelope `{ type, m }` built by `dataEncode`. -/
structure ExtData where
  type : String
  m : Payload

/-- `dataEncode` restricted to the claimed value shapes.  For a `Uint8Array`
the view itself is serialized (`uint8ToBase64(kData)`); for every other
typed kind the whole underlying buffer is serialized
(`uint8ToBase64(new Uint8Array(kData.buffer))`). -/
def dataEncode : JSValue → ExtData
  | JSValue.vundefined => ⟨"undefined", Payload.pNone⟩
  | JSValue.vnull => ⟨"null", Payload.pNone⟩
  | JSValue.vparams s => ⟨"URLSearchParams", Payload.pStr s⟩
  | JSValue.vtyped t =>
      if t.kind = TypedKind.uint8 then ⟨"Uint8Array", Payload.pBytes (viewBytes t)⟩
      else ⟨t.kind.tagName, Payload.pBytes t.buffer⟩
  | JSValue.vobject j => ⟨"object", Payload.pJson j⟩
  | JSValue.vstr s => ⟨"string", Payload.pStr s⟩

/-- `dataDecode`, following the source's tag dispatch order.  Branches whose
values fall outside the modelled universe (`DataView`, `ArrayBuffer`,
`Blob`, `File`, `FormData`) decode to `none`; the modelled encoder never
produces those tags.  `none` also models the `RangeError` thrown by
`new T(buffer)` when the buffer length is not a multiple of the element
size. -/
def dataDecode (p : ExtData) : Option JSValue :=
  if p.type = "" then some JSValue.vundefined
  else if p.type = "null" then some JSValue.vnull
  else if p.type = "undefined" then some JSValue.vundefined
  else if p.type = "object" then
    match p.m with
    | Payload.pJson j => some (JSValue.vobject j)
    | _ => none
  else if p.type = "DataView" ∨ p.type = "ArrayBuffer" ∨ p.type = "Blob" ∨
      p.type = "File" ∨ p.type = "FormData" then
    none
  else if p.type = "URLSearchParams" then
    match p.m with
    | Payload.pStr s => some (JSValue.vparams s)
    | _ => none
  else
    match kindOfTag p.type with
    | some k =>
      match p.m with
      | Payload.pBytes bs =>
        if k = TypedKind.uint8 then
          some (JSValue.vtyped ⟨TypedKind.uint8, bs, 0, bs.length⟩)
        else if bs.length % k.elemSize = 0 then
          some (JSValue.vtyped ⟨k, bs, 0, bs.length⟩)
        else none
      | _ => none
    | none =>
      match p.m with
      | Payload.pStr s => some (JSValue.vstr s)
      | _ => none

/-- Observable equality per the claim: same type tag and same contents;
for typed arrays, same kind and same visible byte (hence element)
sequence. -/
def obsEq : JSValue → JSValue → Prop
  | JSValue.vtyped t1, JSValue.vtyped t2 => t1.kind = t2.kind ∧ viewBytes t1 = viewBytes t2
  | a, b => a = b

/-- The amended domain: every claimed shape, except that a typed array of a
kind other than `Uint8Array` must view its entire buffer. -/
def roundTripSafe : JSValue → Prop
  | JSValue.vtyped t =>
      t.wf ∧ (t.kind = TypedKind.uint8 ∨ (t.byteOffset = 0 ∧ t.byteLength = t.buffer.length))
  | _ => True

theorem kindOfTag_tagName (k : TypedKind) : kindOfTag k.tagName = some k := by
  cases k <;> rfl

theorem dataDecode_typedTag (k : TypedKind) (bs : List Nat) :
    dataDecode ⟨k.tagName, Payload.pBytes bs⟩ =
      (if k = TypedKind.uint8 then
        some (JSValue.vtyped ⟨TypedKind.uint8, bs, 0, bs.length⟩)
      else if bs.length % k.elemSize = 0 then
        some (JSValue.vtyped ⟨k, bs, 0, bs.length⟩)
      else none) := by
  cases k <;>
    simp [dataDecode, kindOfTag, typedKinds, TypedKind.tagName, TypedKind.elemSize]

/-- Claim C3 counterexample: a well-formed `Int16Array` view with
`byteOffset = 2`, `byteLength = 2` over a 4-byte buffer.  `dataEncode`
serializes the whole buffer, so `dataDecode` restores a 2-element view over
all 4 bytes — the element sequence (and length) differ from the original,
refuting the round-trip claim for typed-array instances in general. -/
theorem C3_roundtrip_counterexample :
    (⟨TypedKind.int16, [0, 0, 1, 0], 2, 2⟩ : TypedArrayVal).wf ∧
    dataDecode (dataEncode (JSValue.vtyped ⟨TypedKind.int16, [0, 0, 1, 0], 2, 2⟩)) =
      some (JSValue.vtyped ⟨TypedKind.int16, [0, 0, 1, 0], 0, 4⟩) ∧
    ¬ obsEq (JSValue.vtyped ⟨TypedKind.int16, [0, 0, 1, 0], 0, 4⟩)
        (JSValue.vtyped ⟨TypedKind.int16, [0, 0, 1, 0], 2, 2⟩) := by
  refine ⟨⟨by decide, by decide, by decide⟩, rfl, ?_⟩
  rintro ⟨-, hv⟩
  have hv2 : ([0, 0, 1, 0] : List Nat) = [1, 0] := by
    simpa [viewBytes] using hv
  exact absurd hv2 (by decide)

/-- The decode result is a value observably equal to `v` (decoding neither
threw nor produced a different value). -/
def optObsEq : Option JSValue → JSValue → Prop
  | some w, v => obsEq w v
  | none, _ => False

/-- Claim C3 (amended): `dataDecode (dataEncode v)` is observably equal to
`v` for every string, `null`, `undefined`, JSON-safe plain object,
`URLSearchParams`, every `Uint8Array` instance, and every instance of the
other typed numeric array kinds whose view spans its entire buffer. -/
theorem C3_roundtrip (v : JSValue) (hsafe : roundTripSafe v) :
    optObsEq (dataDecode (dataEncode v)) v := by
  match v with
  | JSValue.vstr s => exact rfl
  | JSValue.vnull => exact rfl
  | JSValue.vundefined => exact rfl
  | JSValue.vobject j => exact rfl
  | JSValue.vparams s => exact rfl
  | JSValue.vtyped t =>
    obtain ⟨⟨hwf1, hwf2, hwf3⟩, hview⟩ := hsafe
    by_cases hk : t.kind = TypedKind.uint8
    · have hdec : dataDecode (dataEncode (JSValue.vtyped t))
          = some (JSValue.vtyped ⟨TypedKind.uint8, viewBytes t, 0, (viewBytes t).length⟩) := by
        have henc : dataEncode (JSValue.vtyped t)
            = ⟨"Uint8Array", Payload.pBytes (viewBytes t)⟩ := by
          simp [dataEncode, hk]
        rw [henc]
        have htag : ("Uint8Array" : String) = TypedKind.tagName TypedKind.uint8 := rfl
        rw [htag, dataDecode_typedTag]
        simp
      rw [hdec]
      simp only [optObsEq, obsEq]
      refine ⟨hk.symm, ?_⟩
      simp [viewBytes]
    · rcases hview with hview | ⟨hoff, hlen⟩
      · exact absurd hview hk
      · have hmod : t.buffer.length % t.kind.elemSize = 0 := by
          rw [← hlen]
          exact hwf3
        have hdec : dataDecode (dataEncode (JSValue.vtyped t))
            = some (JSValue.vtyped ⟨t.kind, t.buffer, 0, t.buffer.length⟩) := by
          have henc : dataEncode (JSValue.vtyped t)
              = ⟨t.kind.tagName, Payload.pBytes t.buffer⟩ := by
            simp [dataEncode, hk]
          rw [henc, dataDecode_typedTag]
          simp [hk, hmod]
        rw [hdec]
        simp only [optObsEq, obsEq]
        refine ⟨by trivial, ?_⟩
        simp [viewBytes, hoff, hlen]

/-- Witness for the amended C3 at a concrete input: a full-buffer
`Int16Array` of four bytes. -/
theorem C3_roundtrip_witness :
    optObsEq (dataDecode (dataEncode (JSValue.vtyped ⟨TypedKind.int16, [1, 0, 2, 0], 0, 4⟩)))
      (JSValue.vtyped ⟨TypedKind.int16, [1, 0, 2, 0], 0, 4⟩) :=
  C3_roundtrip (JSValue.vtyped ⟨TypedKind.int16, [1, 0, 2, 0], 0, 4⟩)
    ⟨⟨by decide, by decide, by decide⟩, Or.inr ⟨rfl, by decide⟩⟩
/-! ## C4: chunked transport (`onDataReceived` in gm_xhr_api.ts, `chunkUint8`)

`chunkUint8` splits a byte array into consecutive 2 MiB slices; the text
path of `onDataReceived` does the same with `substring` steps of
`2 * 1024 * 1024` code units.  Both loops are the `chunkSeq` recursion
below.  Binary `append` messages carry `uint8ToBase64(chunk)`, modelled by
the chunk's bytes; text `append` messages carry the substring itself,
modelled as a list of UTF-16 code units (`Char` here). -/

def CHUNK_SIZE : Nat := 2 * 1024 * 1024

/-- `for (let i = 0; i < len; i += c) push(slice(i, min(i + c, len)))`. -/
def chunkSeq {α : Type} (c : Nat) (xs : List α) : List (List α) :=
  if h : c = 0 ∨ xs.length = 0 then [] else xs.take c :: chunkSeq c (xs.drop c)
termination_by xs.length
decreasing_by
  simp only [List.length_drop]
  have hc : 0 < c := Nat.pos_of_ne_zero (fun hh => h (Or.inl hh))
  have hx : 0 < xs.length := Nat.pos_of_ne_zero (fun hh => h (Or.inr hh))
  omega

theorem chunkSeq_nil {α : Type} (c : Nat) : chunkSeq c ([] : List α) = [] := by
  rw [chunkSeq]
  simp

theorem chunkSeq_eq_cons {α : Type} (c : Nat) (xs : List α) (hc : c ≠ 0) (hx : xs ≠ []) :
    chunkSeq c xs = xs.take c :: chunkSeq c (xs.drop c) := by
  rw [chunkSeq]
  simp [hc, List.length_eq_zero, hx]

theorem chunkSeq_join_aux {α : Type} (c : Nat) (hc : 0 < c) :
    ∀ (n : Nat) (xs : List α), xs.length ≤ n → (chunkSeq c xs).flatten = xs := by
  intro n
  induction n with
  | zero =>
    intro xs hlen
    have : xs = [] := List.length_eq_zero.mp (Nat.le_zero.mp hlen)
    subst this
    simp [chunkSeq_nil]
  | succ n ih =>
    intro xs hlen
    by_cases hx : xs = []
    · subst hx
      simp [chunkSeq_nil]
    · rw [chunkSeq_eq_cons c xs (Nat.pos_iff_ne_zero.mp hc) hx]
      have hxpos : 0 < xs.length := List.length_pos.mpr hx
      have hdrop : (xs.drop c).length ≤ n := by
        simp only [List.length_drop]
        omega
      simp only [List.flatten_cons, ih (xs.drop c) hdrop]
      exact List.take_append_drop c xs

/-- Concatenating the chunks restores the original payload. -/
theorem chunkSeq_join {α : Type} (c : Nat) (hc : 0 < c) (xs : List α) :
    (chunkSeq c xs).flatten = xs :=
  chunkSeq_join_aux c hc xs.length xs le_rfl

theorem chunkSeq_mem_aux {α : Type} (c : Nat) :
    ∀ (n : Nat) (xs : List α), xs.length ≤ n →
      ∀ ch ∈ chunkSeq c xs, ch.length ≤ c ∧ ch ≠ [] := by
  intro n
  induction n with
  | zero =>
    intro xs hlen ch hch
    have : xs = [] := List.length_eq_zero.mp (Nat.le_zero.mp hlen)
    subst this
    simp [chunkSeq_nil] at hch
  | succ n ih =>
    intro xs hlen ch hch
    by_cases h0 : c = 0 ∨ xs.length = 0
    · rw [chunkSeq, dif_pos h0] at hch
      simp at hch
    · push_neg at h0
      obtain ⟨hc, hx0⟩ := h0
      have hx : xs ≠ [] := fun hh => hx0 (by simp [hh])
      rw [chunkSeq_eq_cons c xs hc hx] at hch
      rcases List.mem_cons.mp hch with hch | hch
      · subst hch
        constructor
        · simp
        · intro hnil
          rcases List.take_eq_nil_iff.mp hnil with h | h
          · exact hc h
          · exact hx h
      · have hxpos : 0 < xs.length := List.length_pos.mpr hx
        have hdrop : (xs.drop c).length ≤ n := by
          simp only [List.length_drop]
          have : 0 < c := Nat.pos_of_ne_zero hc
          omega
        exact ih (xs.drop c) hdrop ch hch

/-- Every chunk is at most `c` long and nonempty. -/
theorem chunkSeq_mem {α : Type} (c : Nat) (xs : List α) :
    ∀ ch ∈ chunkSeq c xs, ch.length ≤ c ∧ ch ≠ [] :=
  chunkSeq_mem_aux c xs.length xs le_rfl

theorem chunkSeq_dropLast_aux {α : Type} (c : Nat) :
    ∀ (n : Nat) (xs : List α), xs.length ≤ n →
      ∀ ch ∈ (chunkSeq c xs).dropLast, ch.length = c := by
  intro n
  induction n with
  | zero =>
    intro xs hlen ch hch
    have : xs = [] := List.length_eq_zero.mp (Nat.le_zero.mp hlen)
    subst this
    simp [chunkSeq_nil] at hch
  | succ n ih =>
    intro xs hlen ch hch
    by_cases h0 : c = 0 ∨ xs.length = 0
    · rw [chunkSeq, dif_pos h0] at hch
      simp at hch
    · push_neg at h0
      obtain ⟨hc, hx0⟩ := h0
      have hx : xs ≠ [] := fun hh => hx0 (by simp [hh])
      rw [chunkSeq_eq_cons c xs hc hx] at hch
      by_cases hrest : chunkSeq c (xs.drop c) = []
      · rw [hrest] at hch
        simp at hch
      · rw [List.dropLast_cons_of_ne_nil hrest] at hch
        have hxpos : 0 < xs.length := List.length_pos.mpr hx
        have hcpos : 0 < c := Nat.pos_of_ne_zero hc
        have hdropne : (xs.drop c).length ≠ 0 := by
          intro hdn
          rw [chunkSeq, dif_pos (Or.inr hdn)] at hrest
          exact hrest rfl
        have hlonger : c < xs.length := by
          simp only [List.length_drop] at hdropne
          omega
        rcases List.mem_cons.mp hch with hch | hch
        · subst hch
          simp only [List.length_take]
          omega
        · have hdrop : (xs.drop c).length ≤ n := by
            simp only [List.length_drop]
            omega
          exact ih (xs.drop c) hdrop ch hch

/-- All chunks except the last are exactly `c` long. -/
theorem chunkSeq_dropLast {α : Type} (c : Nat) (xs : List α) :
    ∀ ch ∈ (chunkSeq c xs).dropLast, ch.length = c :=
  chunkSeq_dropLast_aux c xs.length xs le_rfl

/-- Input to `onDataReceived`: a binary payload (`Uint8Array`,
`ArrayBuffer`, or `Blob`, all reduced to their bytes), a text payload, or
anything else (ignored). -/
inductive PayloadIn where
  | bytes (bs : List Nat)
  | text (cs : List Char)
  | other

inductive ChunkData where
  | bin (bs : List Nat)
  | txt (cs : List Char)
deriving DecidableEq, Repr

/-- The two transport message actions: `reset_chunk_<kind>` and
`append_chunk_<kind>`. -/
inductive ChunkMsg where
  | reset (kind : String)
  | append (kind : String) (data : ChunkData)
deriving DecidableEq, Repr

/-- `onDataReceived` (gm_xhr_api.ts): the ordered message sequence sent for
one delivered payload.  `isContinuation` is `param.chunk`. -/
def onDataReceived (isContinuation : Bool) (kind : String) (data : PayloadIn) : List ChunkMsg :=
  match data with
  | PayloadIn.bytes bs =>
      (if isContinuation then [] else [ChunkMsg.reset kind]) ++
        (chunkSeq CHUNK_SIZE bs).map (fun ch => ChunkMsg.append kind (ChunkData.bin ch))
  | PayloadIn.text cs =>
      (if isContinuation then [] else [ChunkMsg.reset kind]) ++
        ((chunkSeq CHUNK_SIZE cs).filter (fun ch => decide (ch.length ≠ 0))).map
          (fun ch => ChunkMsg.append kind (ChunkData.txt ch))
  | PayloadIn.other => []

theorem onDataReceived_text_filter (cs : List Char) :
    (chunkSeq CHUNK_SIZE cs).filter (fun ch => decide (ch.length ≠ 0)) =
      chunkSeq CHUNK_SIZE cs := by
  apply List.filter_eq_self.mpr
  intro ch hch
  have h2 := (chunkSeq_mem CHUNK_SIZE cs ch hch).2
  simp [List.length_eq_zero, h2]

/-- Claim C4: for a non-continuation delivery, the emitted sequence is
exactly one `reset_chunk_<kind>` followed by the `append_chunk_<kind>`
messages of the consecutive chunks; every chunk is at most 2 MiB
(2·2^20 code units for text), all but the last exactly that size, and their
in-order concatenation is the original payload. -/
theorem C4_chunk_protocol (kind : String) (bs : List Nat) (cs : List Char) :
    (onDataReceived false kind (PayloadIn.bytes bs) =
        ChunkMsg.reset kind ::
          (chunkSeq CHUNK_SIZE bs).map (fun ch => ChunkMsg.append kind (ChunkData.bin ch)) ∧
      (chunkSeq CHUNK_SIZE bs).flatten = bs ∧
      (∀ ch ∈ chunkSeq CHUNK_SIZE bs, ch.length ≤ CHUNK_SIZE) ∧
      (∀ ch ∈ (chunkSeq CHUNK_SIZE bs).dropLast, ch.length = CHUNK_SIZE)) ∧
    (onDataReceived false kind (PayloadIn.text cs) =
        ChunkMsg.reset kind ::
          (chunkSeq CHUNK_SIZE cs).map (fun ch => ChunkMsg.append kind (ChunkData.txt ch)) ∧
      (chunkSeq CHUNK_SIZE cs).flatten = cs ∧
      (∀ ch ∈ chunkSeq CHUNK_SIZE cs, ch.length ≤ CHUNK_SIZE) ∧
      (∀ ch ∈ (chunkSeq CHUNK_SIZE cs).dropLast, ch.length = CHUNK_SIZE)) := by
  have hc : 0 < CHUNK_SIZE := by decide
  refine ⟨⟨?_, chunkSeq_join _ hc bs, ?_, chunkSeq_dropLast _ bs⟩,
    ⟨?_, chunkSeq_join _ hc cs, ?_, chunkSeq_dropLast _ cs⟩⟩
  · simp [onDataReceived]
  · exact fun ch hch => (chunkSeq_mem CHUNK_SIZE bs ch hch).1
  · simp only [onDataReceived, onDataReceived_text_filter, Bool.false_eq_true, if_neg]
    simp
  · exact fun ch hch => (chunkSeq_mem CHUNK_SIZE cs ch hch).1

/-- Witness for C4 at concrete payloads (binder-free parts: the message
sequences and the reassembled payloads). -/
theorem C4_chunk_protocol_witness :
    (onDataReceived false "text" (PayloadIn.bytes [1, 2, 3]) =
        ChunkMsg.reset "text" ::
          (chunkSeq CHUNK_SIZE [1, 2, 3]).map
            (fun ch => ChunkMsg.append "text" (ChunkData.bin ch)) ∧
      (chunkSeq CHUNK_SIZE [1, 2, 3]).flatten = [1, 2, 3]) ∧
    (onDataReceived false "text" (PayloadIn.text ['a', 'b']) =
        ChunkMsg.reset "text" ::
          (chunkSeq CHUNK_SIZE ['a', 'b']).map
            (fun ch => ChunkMsg.append "text" (ChunkData.txt ch)) ∧
      (chunkSeq CHUNK_SIZE ['a', 'b']).flatten = ['a', 'b']) := by
  have r := C4_chunk_protocol "text" [1, 2, 3] ['a', 'b']
  exact ⟨⟨r.1.1, r.1.2.1⟩, ⟨r.2.1, r.2.2.1⟩⟩

/-! ## C5: header-rule management across redirects
(`onHeadersReceived` listener in `handlerGmXhr`, `buildDNRRule`)

The listener looks up the DNR rule bound to the request's markerId, scans
the response headers for a `Location` header (resolving it against the
request URL), and either clones the rule with the new `urlFilter` and the
cookie operations dropped (redirect mode not `"manual"`), or deletes the
rule from the map and the session rules.  `resolveUrl` abstracts
`new URL(value, base).href` (`none` models a construction failure). -/

structure HttpHeader where
  name : String
  value : Option String
deriving DecidableEq, Repr

structure ModifyHeaderInfo where
  header : String
  operation : String
  value : Option String
deriving DecidableEq, Repr

structure RuleAction where
  type : String
  requestHeaders : List ModifyHeaderInfo
deriving DecidableEq, Repr

structure RuleCondition where
  resourceTypes : List String
  urlFilter : String
  requestMethods : List String
  tabIds : List Int
deriving DecidableEq, Repr

structure DNRRule where
  id : Nat
  action : RuleAction
  priority : Nat
  condition : RuleCondition
deriving DecidableEq, Repr

/-- An entry of `headerModifierMap`. -/
structure HeaderModifierEntry where
  rule : DNRRule
  redirectNotManual : Bool
deriving DecidableEq, Repr

/-- The rule map plus the platform's session rule list. -/
structure DNRState where
  headerModifierMap : List (String × HeaderModifierEntry)
  sessionRules : List DNRRule
deriving DecidableEq, Repr

/-- `chrome.declarativeNetRequest.updateSessionRules`. -/
def updateSessionRules (rules : List DNRRule) (removeRuleIds : List Nat)
    (addRules : List DNRRule) : List DNRRule :=
  rules.filter (fun r => decide (r.id ∉ removeRuleIds)) ++ addRules

/-- The `Location`-header scan: every matching header (name of length 8
equal to `"location"` case-insensitively, nonempty value, successful URL
resolution with nonempty result) overwrites the running value. -/
def extractLocation (resolveUrl : String → String → Option String)
    (responseHeaders : List HttpHeader) (detailsUrl : String) : String :=
  responseHeaders.foldl
    (fun loc h =>
      if h.name.length = 8 ∧ strToLower h.name = "location" ∧ h.value.getD "" ≠ "" then
        match resolveUrl (h.value.getD "") detailsUrl with
        | some href => if href ≠ "" then href else loc
        | none => loc
      else loc)
    ""

/-- The object clone built on a non-manual redirect: same rule id, new
`urlFilter`, cookie operations dropped. -/
def redirectClone (rule : DNRRule) (location : String) : DNRRule :=
  { rule with
    condition := { rule.condition with urlFilter := location },
    action := { rule.action with
      requestHeaders :=
        rule.action.requestHeaders.filter (fun h => decide (strToLower h.header ≠ "cookie")) } }

/-- The rule-management part of the `onHeadersReceived` listener for a
bound request.  (The `headersReceivedMap` snapshot written by the same
listener is modelled with the correlation maps, see `loadendCleanUp`.) -/
def onHeadersReceivedRule (resolveUrl : String → String → Option String) (st : DNRState)
    (markerId : String) (responseHeaders : List HttpHeader) (detailsUrl : String) : DNRState :=
  match mget st.headerModifierMap markerId with
  | none => st
  | some entry =>
    let location := extractLocation resolveUrl responseHeaders detailsUrl
    if location ≠ "" ∧ entry.redirectNotManual = true then
      let newRule := redirectClone entry.rule location
      { headerModifierMap :=
          mset st.headerModifierMap markerId ⟨newRule, entry.redirectNotManual⟩,
        sessionRules := updateSessionRules st.sessionRules [entry.rule.id] [newRule] }
    else
      { headerModifierMap := mdel st.headerModifierMap markerId,
        sessionRules := updateSessionRules st.sessionRules [entry.rule.id] [] }

/-- Claim C5: with a rule bound to the markerId, a resolved `Location`
header and a non-manual redirect replace the stored rule by a clone whose
`urlFilter` is the resolved URL and whose header operations contain no
cookie operation, swapping the session rule accordingly; a manual redirect
or an absent/unresolvable `Location` deletes the rule from the map and
from the session rules. -/
theorem C5_redirect_rule (resolveUrl : String → String → Option String) (st : DNRState)
    (markerId : String) (rule : DNRRule) (rnm : Bool)
    (headers : List HttpHeader) (url : String)
    (hent : mget st.headerModifierMap markerId = some ⟨rule, rnm⟩) :
    (extractLocation resolveUrl headers url ≠ "" → rnm = true →
      mget (onHeadersReceivedRule resolveUrl st markerId headers url).headerModifierMap markerId
          = some ⟨redirectClone rule (extractLocation resolveUrl headers url), true⟩ ∧
      (redirectClone rule (extractLocation resolveUrl headers url)).condition.urlFilter
          = extractLocation resolveUrl headers url ∧
      (∀ h ∈ (redirectClone rule (extractLocation resolveUrl headers url)).action.requestHeaders,
          strToLower h.header ≠ "cookie") ∧
      (onHeadersReceivedRule resolveUrl st markerId headers url).sessionRules
          = st.sessionRules.filter (fun r => decide (r.id ∉ ([rule.id] : List Nat)))
              ++ [redirectClone rule (extractLocation resolveUrl headers url)]) ∧
    ((extractLocation resolveUrl headers url = "" ∨ rnm = false) →
      mget (onHeadersReceivedRule resolveUrl st markerId headers url).headerModifierMap markerId
          = none ∧
      (onHeadersReceivedRule resolveUrl st markerId headers url).sessionRules
          = st.sessionRules.filter (fun r => decide (r.id ∉ ([rule.id] : List Nat)))) := by
  constructor
  · intro hloc hrnm
    subst hrnm
    have hdef : onHeadersReceivedRule resolveUrl st markerId headers url =
        { headerModifierMap := mset st.headerModifierMap markerId
            ⟨redirectClone rule (extractLocation resolveUrl headers url), true⟩,
          sessionRules := updateSessionRules st.sessionRules [rule.id]
            [redirectClone rule (extractLocation resolveUrl headers url)] } := by
      simp only [onHeadersReceivedRule, hent]
      rw [if_pos ⟨hloc, trivial⟩]
    rw [hdef]
    refine ⟨mget_mset_self _ _ _, rfl, ?_, rfl⟩
    intro h hh
    have := List.of_mem_filter hh
    simpa using this
  · intro hfail
    have hcond : ¬ (extractLocation resolveUrl headers url ≠ "" ∧
        (⟨rule, rnm⟩ : HeaderModifierEntry).redirectNotManual = true) := by
      rcases hfail with hfail | hfail
      · intro hcon
        exact hcon.1 hfail
      · intro hcon
        rw [hfail] at hcon
        exact Bool.false_ne_true hcon.2
    have hdef : onHeadersReceivedRule resolveUrl st markerId headers url =
        { headerModifierMap := mdel st.headerModifierMap markerId,
          sessionRules := updateSessionRules st.sessionRules [rule.id] [] } := by
      simp only [onHeadersReceivedRule, hent]
      rw [if_neg hcond]
    rw [hdef]
    refine ⟨mget_mdel_self _ _, ?_⟩
    simp [updateSessionRules]

/-- Concrete rule/state/headers for the C5 witness. -/
def c5Rule : DNRRule :=
  ⟨10001, ⟨"modifyHeaders", [⟨"cookie", "set", some "a=1"⟩, ⟨"origin", "set", some ""⟩]⟩, 1,
    ⟨["xmlhttprequest"], "https://before.test/", ["get"], [-1]⟩⟩

def c5State : DNRState := ⟨[("M1", ⟨c5Rule, true⟩)], [c5Rule]⟩

def c5Headers : List HttpHeader := [⟨"Location", some "https://after.test/"⟩]

/-- Witness for C5 at a concrete state: one rule carrying a cookie-set
operation, a `Location: https://after.test/` header, a non-manual
redirect, and the identity URL resolver.  The clone keeps the origin
operation and drops the cookie operation. -/
theorem C5_redirect_rule_witness :
    mget (onHeadersReceivedRule (fun v _ => some v) c5State "M1" c5Headers
        "https://before.test/").headerModifierMap "M1"
      = some ⟨redirectClone c5Rule (extractLocation (fun v _ => some v) c5Headers
          "https://before.test/"), true⟩ ∧
    (onHeadersReceivedRule (fun v _ => some v) c5State "M1" c5Headers
        "https://before.test/").sessionRules
      = c5State.sessionRules.filter (fun r => decide (r.id ∉ ([c5Rule.id] : List Nat)))
          ++ [redirectClone c5Rule (extractLocation (fun v _ => some v) c5Headers
              "https://before.test/")] ∧
    (redirectClone c5Rule (extractLocation (fun v _ => some v) c5Headers
        "https://before.test/")).action.requestHeaders = [⟨"origin", "set", some ""⟩] := by
  have r := (C5_redirect_rule (fun v _ => some v) c5State "M1" c5Rule true c5Headers
    "https://before.test/" (by decide)).1 (by decide) rfl
  exact ⟨r.1, r.2.2.2, by decide⟩

/-! ## C6: `getConnectMatched` and the `GM_xmlhttpRequest` confirm callback

`getConnectMatched` returns 0 (no match), 1 (`*`), 2 (domain-suffix match)
or 3 (`self` match).  The confirm callback of `GM_xmlhttpRequest` consults
it together with the module constants `askUnlistedConnect = false` and
`askConnectStar = true`: a suffix or `self` match returns `true`
immediately (no prompt), only a `*` match builds a ConfirmParam, and an
unlisted host is refused with `extraCode = 0x30`.  The request and sender
URLs are represented by their (already lowercased) hostnames; an absent or
unparseable sender URL is `none`. -/

def connectMatchedLoop (reqHostname : String) (senderHostname : Option String) :
    List String → Nat
  | [] => 0
  | c :: rest =>
    let lower := strToLower c
    if lower = "self" then
      match senderHostname with
      | some sh =>
        if reqHostname = sh then 3 else connectMatchedLoop reqHostname senderHostname rest
      | none => connectMatchedLoop reqHostname senderHostname rest
    else if lower = "*" then 1
    else if strEndsWith (String.append "." reqHostname) (String.append "." lower) then 2
    else connectMatchedLoop reqHostname senderHostname rest

/-- `getConnectMatched(metadataConnect, reqURL, sender)`. -/
def getConnectMatched (metadataConnect : Option (List String)) (reqHostname : String)
    (senderHostname : Option String) : Nat :=
  match metadataConnect with
  | some l => if l.length ≠ 0 then connectMatchedLoop reqHostname senderHostname l else 0
  | none => 0

def askUnlistedConnect : Bool := false

def askConnectStar : Bool := true

/-- Result of the confirm callback: `true` (allowed, nothing queued or
shown), `false` with `extraCode = 0x30` (later surfaced as "Refused to
connect"), or a ConfirmParam asking the user. -/
inductive ConfirmDecision where
  | allowed
  | refusedUnlisted
  | ask (permission : String) (permissionValue : String) (wildcard : Bool)
deriving DecidableEq, Repr

/-- The `GM_xmlhttpRequest` confirm callback. -/
def gmXhrConfirm (metadataConnect : Option (List String)) (reqHostname : String)
    (senderHostname : Option String) : ConfirmDecision :=
  let connectMatched := getConnectMatched metadataConnect reqHostname senderHostname
  if connectMatched = 1 then
    if askConnectStar = false then ConfirmDecision.allowed
    else ConfirmDecision.ask "cors" reqHostname true
  else if 0 < connectMatched then ConfirmDecision.allowed
  else if askUnlistedConnect = false then ConfirmDecision.refusedUnlisted
  else ConfirmDecision.ask "cors" reqHostname true

/-- `pushConfirmQueue`: a callback result of `true` returns immediately;
only a non-`true` result is pushed onto the confirm queue. -/
def pushConfirmEnqueues : ConfirmDecision → Bool
  | ConfirmDecision.allowed => false
  | ConfirmDecision.refusedUnlisted => true
  | ConfirmDecision.ask _ _ _ => true

/-- Claim C6 counterexample: with `connect: ["example.com"]` and a request
to host `api.example.com`, the connect check matches by domain suffix
(result 2), but the confirm callback then returns `true` outright: no
confirmation is requested, so nothing is ever persisted for host
`api.example.com` — contradicting the claimed prompt-once-then-cache
scenario. -/
theorem C6_scenario_counterexample :
    getConnectMatched (some ["example.com"]) "api.example.com" none = 2 ∧
    gmXhrConfirm (some ["example.com"]) "api.example.com" none = ConfirmDecision.allowed ∧
    pushConfirmEnqueues (gmXhrConfirm (some ["example.com"]) "api.example.com" none) = false := by
  refine ⟨?_, ?_, ?_⟩ <;> decide

/-- Claim C6 (amended): a domain-suffix connect match makes the confirm
callback return `true`: the request is allowed with no confirmation
enqueued or shown and no decision recorded, and any later identical
request is allowed the same way (the decision is a pure function of the
same inputs).  Only a `*` connect match produces a ConfirmParam. -/
theorem C6_suffix_match_allows_silently (metadataConnect : List String)
    (reqHostname : String) (senderHostname : Option String)
    (hmatch : getConnectMatched (some metadataConnect) reqHostname senderHostname = 2) :
    gmXhrConfirm (some metadataConnect) reqHostname senderHostname = ConfirmDecision.allowed ∧
    pushConfirmEnqueues (gmXhrConfirm (some metadataConnect) reqHostname senderHostname)
      = false := by
  have h2 : gmXhrConfirm (some metadataConnect) reqHostname senderHostname
      = ConfirmDecision.allowed := by
    simp [gmXhrConfirm, hmatch]
  exact ⟨h2, by rw [h2]; rfl⟩

/-- Witness for the amended C6 at the scenario's concrete input. -/
theorem C6_suffix_match_allows_silently_witness :
    gmXhrConfirm (some ["example.com"]) "api.example.com" none = ConfirmDecision.allowed ∧
    pushConfirmEnqueues (gmXhrConfirm (some ["example.com"]) "api.example.com" none) = false :=
  C6_suffix_match_allows_silently ["example.com"] "api.example.com" none (by decide)

/-! ## C7: user-confirm outcome handling (`PermissionVerify.confirm`)

After `confirmWindow` resolves, `confirm` builds a `Permission` model whose
`permissionValue` depends on the outcome type (1 allow-once, 2/3 temporary,
4/5 permanent; even types mean all-scope `"*"`), caches it for types ≥ 2,
and persists it for types ≥ 4 — updating an existing record with the same
`(uuid, permission, permissionValue)` key instead of inserting a duplicate.
The decision cache is keyed by the opaque `cacheKey` string
(`CacheKey.permissionConfirm`); the store is keyed by the DAO key triple. -/

structure Permission where
  uuid : String
  permission : String
  permissionValue : String
  allow : Bool
  createtime : Nat
  updatetime : Nat
deriving DecidableEq, Repr

structure UserConfirm where
  allow : Bool
  type : Nat
deriving DecidableEq, Repr

abbrev PermKey := String × String × String

/-- `permissionDAO.key(model)`. -/
def permKey (p : Permission) : PermKey := (p.uuid, p.permission, p.permissionValue)

/-- The in-memory decision cache and the persistent permission store. -/
structure ConfirmStores where
  cache : List (String × Permission)
  db : List (PermKey × Permission)
deriving DecidableEq, Repr

/-- `permissionDAO.update`: replace the record at the key. -/
def dbUpdate {κ α : Type} [DecidableEq κ] (m : List (κ × α)) (k : κ) (v : α) :
    List (κ × α) :=
  m.map (fun p => if p.1 = k then (k, v) else p)

/-- `findByKey` then `save` (append a fresh record) or `update` (replace
the existing one). -/
def dbSet {κ α : Type} [DecidableEq κ] (m : List (κ × α)) (k : κ) (v : α) : List (κ × α) :=
  match mget m k with
  | none => m ++ [(k, v)]
  | some _ => dbUpdate m k v

/-- Number of records stored under a key. -/
def keyCount {κ α : Type} [DecidableEq κ] (m : List (κ × α)) (k : κ) : Nat :=
  (m.filter (fun p => decide (p.1 = k))).length

/-- The `permissionValue` the switch on the outcome type stores. -/
def storedScope (ucType : Nat) (confirmPermissionValue : String) : String :=
  if ucType = 4 ∨ ucType = 2 then "*"
  else if ucType = 5 ∨ ucType = 3 then confirmPermissionValue
  else ""

/-- The `Permission` model built from the user outcome. -/
def storedModel (uuid confirmPermission confirmPermissionValue : String) (uc : UserConfirm)
    (now : Nat) : Permission :=
  ⟨uuid, confirmPermission, storedScope uc.type confirmPermissionValue, uc.allow, now, 0⟩

/-- The cache/persist phase of `PermissionVerify.confirm` after the user
outcome arrives, plus the returned result (`true` on allow, the
`"permission not allowed"` error otherwise). -/
def applyUserConfirm (stores : ConfirmStores) (cacheKey uuid confirmPermission
    confirmPermissionValue : String) (uc : UserConfirm) (now : Nat) :
    ConfirmStores × Except ConfirmErr Bool :=
  let model := storedModel uuid confirmPermission confirmPermissionValue uc now
  let stores1 :=
    if 2 ≤ uc.type then { stores with cache := mset stores.cache cacheKey model } else stores
  let stores2 :=
    if 4 ≤ uc.type then { stores1 with db := dbSet stores1.db (permKey model) model }
    else stores1
  (stores2, if uc.allow then Except.ok true else Except.error ConfirmErr.notAllowed)

theorem mget_append_of_none {κ α : Type} [DecidableEq κ] (m1 m2 : List (κ × α)) (k : κ)
    (h : mget m1 k = none) : mget (m1 ++ m2) k = mget m2 k := by
  induction m1 with
  | nil => simp
  | cons p rest ih =>
    obtain ⟨k', v⟩ := p
    by_cases hk : k' = k
    · rw [mget, if_pos hk] at h
      exact absurd h (by simp)
    · rw [mget, if_neg hk] at h
      rw [List.cons_append, mget, if_neg hk]
      exact ih h

theorem mget_dbUpdate_self {κ α : Type} [DecidableEq κ] (m : List (κ × α)) (k : κ)
    (v w : α) (h : mget m k = some w) : mget (dbUpdate m k v) k = some v := by
  induction m with
  | nil => simp [mget] at h
  | cons p rest ih =>
    obtain ⟨k', u⟩ := p
    by_cases hk : k' = k
    · subst hk
      simp only [dbUpdate, List.map_cons]
      simp [mget]
    · rw [mget, if_neg hk] at h
      simp only [dbUpdate, List.map_cons, if_neg hk]
      rw [mget, if_neg hk]
      exact ih h

theorem keyCount_of_mget_none {κ α : Type} [DecidableEq κ] (m : List (κ × α)) (k : κ)
    (h : mget m k = none) : keyCount m k = 0 := by
  induction m with
  | nil => simp [keyCount]
  | cons p rest ih =>
    obtain ⟨k', v⟩ := p
    by_cases hk : k' = k
    · rw [mget, if_pos hk] at h
      exact absurd h (by simp)
    · rw [mget, if_neg hk] at h
      simp only [keyCount, List.filter_cons]
      rw [if_neg (by simpa using hk)]
      exact ih h

theorem keyCount_pos_of_mget_some {κ α : Type} [DecidableEq κ] (m : List (κ × α)) (k : κ)
    (v : α) (h : mget m k = some v) : 0 < keyCount m k := by
  induction m with
  | nil => simp [mget] at h
  | cons p rest ih =>
    obtain ⟨k', u⟩ := p
    by_cases hk : k' = k
    · simp only [keyCount, List.filter_cons]
      rw [if_pos (by simpa using hk)]
      simp
    · rw [mget, if_neg hk] at h
      simp only [keyCount, List.filter_cons]
      rw [if_neg (by simpa using hk)]
      exact ih h

theorem keyCount_dbUpdate {κ α : Type} [DecidableEq κ] (m : List (κ × α)) (k : κ) (v : α) :
    keyCount (dbUpdate m k v) k = keyCount m k := by
  induction m with
  | nil => simp [dbUpdate, keyCount]
  | cons p rest ih =>
    obtain ⟨k', u⟩ := p
    by_cases hk : k' = k
    · simp only [dbUpdate, List.map_cons, if_pos hk, keyCount, List.filter_cons]
      rw [if_pos (by simp), if_pos (by simpa using hk)]
      simpa [keyCount, dbUpdate] using ih
    · simp only [dbUpdate, List.map_cons, if_neg hk, keyCount, List.filter_cons]
      rw [if_neg (by simpa using hk), if_neg (by simpa using hk)]
      simpa [keyCount, dbUpdate] using ih

theorem keyCount_append {κ α : Type} [DecidableEq κ] (m1 m2 : List (κ × α)) (k : κ) :
    keyCount (m1 ++ m2) k = keyCount m1 k + keyCount m2 k := by
  simp [keyCount, List.filter_append]

/-- `dbSet` leaves exactly one record under the key (given the store held
at most one) and `mget` finds the new value. -/
theorem dbSet_spec {κ α : Type} [DecidableEq κ] (m : List (κ × α)) (k : κ) (v : α)
    (hdup : keyCount m k ≤ 1) :
    mget (dbSet m k v) k = some v ∧ keyCount (dbSet m k v) k = 1 := by
  cases hm : mget m k with
  | none =>
    constructor
    · rw [dbSet, hm, mget_append_of_none m [(k, v)] k hm]
      simp [mget]
    · rw [dbSet, hm, keyCount_append, keyCount_of_mget_none m k hm]
      simp [keyCount]
  | some w =>
    constructor
    · rw [dbSet, hm]
      exact mget_dbUpdate_self m k v w hm
    · rw [dbSet, hm, keyCount_dbUpdate]
      have := keyCount_pos_of_mget_some m k w hm
      omega

/-- Claim C7: outcome type 1 writes neither store; types 2 and 3 write the
cache only; types 4 and 5 write cache and persistent store, keeping exactly
one record under the key; the stored scope is `"*"` for types 2 and 4 and
the specific permission value for types 3 and 5; the call returns `true`
exactly on an allow outcome. -/
theorem C7_confirm_outcome_storage (stores : ConfirmStores)
    (cacheKey uuid cperm cval : String) (uc : UserConfirm) (now : Nat)
    (hdup : keyCount stores.db (permKey (storedModel uuid cperm cval uc now)) ≤ 1) :
    (uc.type = 1 →
        (applyUserConfirm stores cacheKey uuid cperm cval uc now).1 = stores) ∧
    (uc.type = 2 ∨ uc.type = 3 →
        (applyUserConfirm stores cacheKey uuid cperm cval uc now).1.cache
            = mset stores.cache cacheKey (storedModel uuid cperm cval uc now) ∧
        (applyUserConfirm stores cacheKey uuid cperm cval uc now).1.db = stores.db) ∧
    (uc.type = 4 ∨ uc.type = 5 →
        (applyUserConfirm stores cacheKey uuid cperm cval uc now).1.cache
            = mset stores.cache cacheKey (storedModel uuid cperm cval uc now) ∧
        mget (applyUserConfirm stores cacheKey uuid cperm cval uc now).1.db
            (permKey (storedModel uuid cperm cval uc now))
            = some (storedModel uuid cperm cval uc now) ∧
        keyCount (applyUserConfirm stores cacheKey uuid cperm cval uc now).1.db
            (permKey (storedModel uuid cperm cval uc now)) = 1) ∧
    (uc.type = 2 ∨ uc.type = 4 →
        (storedModel uuid cperm cval uc now).permissionValue = "*") ∧
    (uc.type = 3 ∨ uc.type = 5 →
        (storedModel uuid cperm cval uc now).permissionValue = cval) ∧
    ((applyUserConfirm stores cacheKey uuid cperm cval uc now).2
        = if uc.allow then Except.ok true else Except.error ConfirmErr.notAllowed) := by
  refine ⟨?_, ?_, ?_, ?_, ?_, rfl⟩
  · intro h1
    have h2 : ¬ 2 ≤ uc.type := by omega
    have h4 : ¬ 4 ≤ uc.type := by omega
    simp [applyUserConfirm, h2, h4]
  · intro h23
    have h2 : 2 ≤ uc.type := by omega
    have h4 : ¬ 4 ≤ uc.type := by omega
    constructor
    · simp [applyUserConfirm, h2, h4]
    · simp [applyUserConfirm, h2, h4]
  · intro h45
    have h2 : 2 ≤ uc.type := by omega
    have h4 : 4 ≤ uc.type := by omega
    have hspec := dbSet_spec stores.db
      (permKey (storedModel uuid cperm cval uc now))
      (storedModel uuid cperm cval uc now) hdup
    refine ⟨?_, ?_, ?_⟩
    · simp [applyUserConfirm, h2, h4]
    · simp only [applyUserConfirm, if_pos h2, if_pos h4]
      exact hspec.1
    · simp only [applyUserConfirm, if_pos h2, if_pos h4]
      exact hspec.2
  · intro h24
    rcases h24 with h | h <;> simp [storedModel, storedScope, h]
  · intro h35
    rcases h35 with h | h <;> simp [storedModel, storedScope, h]

/-- Witness for C7: a permanent-this outcome (type 5, allow) on empty
stores. -/
theorem C7_confirm_outcome_storage_witness :
    ((⟨true, 5⟩ : UserConfirm).type = 1 →
        (applyUserConfirm ⟨[], []⟩ "permission:u1:cors:h" "u1" "cors" "api.example.com"
          ⟨true, 5⟩ 1700).1 = ⟨[], []⟩) ∧
    ((⟨true, 5⟩ : UserConfirm).type = 2 ∨ (⟨true, 5⟩ : UserConfirm).type = 3 →
        (applyUserConfirm ⟨[], []⟩ "permission:u1:cors:h" "u1" "cors" "api.example.com"
            ⟨true, 5⟩ 1700).1.cache
            = mset [] "permission:u1:cors:h"
                (storedModel "u1" "cors" "api.example.com" ⟨true, 5⟩ 1700) ∧
        (applyUserConfirm ⟨[], []⟩ "permission:u1:cors:h" "u1" "cors" "api.example.com"
            ⟨true, 5⟩ 1700).1.db = []) ∧
    ((⟨true, 5⟩ : UserConfirm).type = 4 ∨ (⟨true, 5⟩ : UserConfirm).type = 5 →
        (applyUserConfirm ⟨[], []⟩ "permission:u1:cors:h" "u1" "cors" "api.example.com"
            ⟨true, 5⟩ 1700).1.cache
            = mset [] "permission:u1:cors:h"
                (storedModel "u1" "cors" "api.example.com" ⟨true, 5⟩ 1700) ∧
        mget (applyUserConfirm ⟨[], []⟩ "permission:u1:cors:h" "u1" "cors" "api.example.com"
            ⟨true, 5⟩ 1700).1.db
            (permKey (storedModel "u1" "cors" "api.example.com" ⟨true, 5⟩ 1700))
            = some (storedModel "u1" "cors" "api.example.com" ⟨true, 5⟩ 1700) ∧
        keyCount (applyUserConfirm ⟨[], []⟩ "permission:u1:cors:h" "u1" "cors" "api.example.com"
            ⟨true, 5⟩ 1700).1.db
            (permKey (storedModel "u1" "cors" "api.example.com" ⟨true, 5⟩ 1700)) = 1) ∧
    ((⟨true, 5⟩ : UserConfirm).type = 2 ∨ (⟨true, 5⟩ : UserConfirm).type = 4 →
        (storedModel "u1" "cors" "api.example.com" ⟨true, 5⟩ 1700).permissionValue = "*") ∧
    ((⟨true, 5⟩ : UserConfirm).type = 3 ∨ (⟨true, 5⟩ : UserConfirm).type = 5 →
        (storedModel "u1" "cors" "api.example.com" ⟨true, 5⟩ 1700).permissionValue
          = "api.example.com") ∧
    ((applyUserConfirm ⟨[], []⟩ "permission:u1:cors:h" "u1" "cors" "api.example.com"
        ⟨true, 5⟩ 1700).2
        = if (⟨true, 5⟩ : UserConfirm).allow then Except.ok true
          else Except.error ConfirmErr.notAllowed) :=
  C7_confirm_outcome_storage ⟨[], []⟩ "permission:u1:cors:h" "u1" "cors" "api.example.com"
    ⟨true, 5⟩ 1700 (by decide)

/-! ## C8: the confirmation queue worker (`dealConfirmQueue` /
`pushConfirmQueue`)

`pushConfirmQueue` appends waiting confirmations to the back of the queue;
the single worker loop pops the front item, awaits `confirm` for it to
completion (resolve or reject), and only then recurses to pop the next.
The observable events of one run over a queue whose items arrived in list
order are therefore the alternating pop/settle sequence produced below. -/

/-- A queued confirmation: its identity and the outcome its `confirm` call
will produce. -/
structure QItem where
  id : Nat
  outcome : Except ConfirmErr Bool
deriving Repr

/-- Observable events of the worker: an item is popped (its confirmation
becomes the one in flight) and later settled (resolved or rejected). -/
inductive QEvent where
  | pop (id : Nat)
  | settle (id : Nat) (outcome : Except ConfirmErr Bool)
deriving Repr

/-- `dealConfirmQueue`: pop, await the confirmation to completion,
recurse. -/
def dealConfirmQueueTrace : List QItem → List QEvent
  | [] => []
  | it :: rest =>
      QEvent.pop it.id :: QEvent.settle it.id it.outcome :: dealConfirmQueueTrace rest

def isPop : QEvent → Bool
  | QEvent.pop _ => true
  | QEvent.settle _ _ => false

def isSettle : QEvent → Bool
  | QEvent.pop _ => false
  | QEvent.settle _ _ => true

/-- Confirmations started so far. -/
def popCount (tr : List QEvent) : Nat := (tr.filter isPop).length

/-- Confirmations finished so far. -/
def settleCount (tr : List QEvent) : Nat := (tr.filter isSettle).length

theorem popCount_cons_pop (x : Nat) (l : List QEvent) :
    popCount (QEvent.pop x :: l) = popCount l + 1 := by
  simp [popCount, isPop, List.filter]

theorem popCount_cons_settle (x : Nat) (o : Except ConfirmErr Bool) (l : List QEvent) :
    popCount (QEvent.settle x o :: l) = popCount l := by
  simp [popCount, isPop, List.filter]

theorem settleCount_cons_pop (x : Nat) (l : List QEvent) :
    settleCount (QEvent.pop x :: l) = settleCount l := by
  simp [settleCount, isSettle, List.filter]

theorem settleCount_cons_settle (x : Nat) (o : Except ConfirmErr Bool) (l : List QEvent) :
    settleCount (QEvent.settle x o :: l) = settleCount l + 1 := by
  simp [settleCount, isSettle, List.filter]

theorem dealConfirmQueue_pending_aux :
    ∀ (items : List QItem) (t1 t2 : List QEvent),
      dealConfirmQueueTrace items = t1 ++ t2 →
      settleCount t1 ≤ popCount t1 ∧ popCount t1 ≤ settleCount t1 + 1 := by
  intro items
  induction items with
  | nil =>
    intro t1 t2 h
    rw [dealConfirmQueueTrace] at h
    have h1 : t1 = [] := List.append_eq_nil.mp h.symm |>.1
    subst h1
    simp [popCount, settleCount]
  | cons it rest ih =>
    intro t1 t2 h
    rw [dealConfirmQueueTrace] at h
    match t1 with
    | [] => simp [popCount, settleCount]
    | [e1] =>
      simp only [List.cons_append, List.nil_append, List.cons.injEq] at h
      obtain ⟨he1, -⟩ := h
      subst he1
      simp [popCount, settleCount, isPop, isSettle, List.filter]
    | e1 :: e2 :: t1' =>
      simp only [List.cons_append, List.cons.injEq] at h
      obtain ⟨he1, he2, hrest⟩ := h
      subst he1
      subst he2
      have := ih t1' t2 hrest
      rw [popCount_cons_pop, settleCount_cons_pop, popCount_cons_settle,
        settleCount_cons_settle]
      omega

theorem dealConfirmQueue_pop_waits_aux :
    ∀ (items : List QItem) (t1 : List QEvent) (x : Nat) (t2 : List QEvent),
      dealConfirmQueueTrace items = t1 ++ QEvent.pop x :: t2 →
      popCount t1 = settleCount t1 := by
  intro items
  induction items with
  | nil =>
    intro t1 x t2 h
    rw [dealConfirmQueueTrace] at h
    exact absurd h.symm (by simp)
  | cons it rest ih =>
    intro t1 x t2 h
    rw [dealConfirmQueueTrace] at h
    match t1 with
    | [] => simp [popCount, settleCount]
    | [e1] =>
      simp only [List.cons_append, List.nil_append, List.cons.injEq] at h
      obtain ⟨-, hsettle, -⟩ := h
      exact absurd hsettle (by simp)
    | e1 :: e2 :: t1' =>
      simp only [List.cons_append, List.cons.injEq] at h
      obtain ⟨he1, he2, hrest⟩ := h
      subst he1
      subst he2
      have := ih t1' x t2 hrest
      rw [popCount_cons_pop, settleCount_cons_pop, popCount_cons_settle,
        settleCount_cons_settle]
      omega

/-- Claim C8: the queue is drained strictly FIFO and single-flight: pops
occur in arrival order; whenever a confirmation is popped, every earlier
one has already settled; and in every prefix of the run at most one popped
confirmation is unsettled, so at most one is in front of the user at any
instant. -/
theorem C8_queue_fifo_single_flight (items : List QItem) :
    ((dealConfirmQueueTrace items).filter isPop
        = items.map (fun it => QEvent.pop it.id)) ∧
    (∀ t1 x t2, dealConfirmQueueTrace items = t1 ++ QEvent.pop x :: t2 →
        popCount t1 = settleCount t1) ∧
    (∀ t1 t2, dealConfirmQueueTrace items = t1 ++ t2 →
        settleCount t1 ≤ popCount t1 ∧ popCount t1 ≤ settleCount t1 + 1) := by
  refine ⟨?_, dealConfirmQueue_pop_waits_aux items, dealConfirmQueue_pending_aux items⟩
  induction items with
  | nil => simp [dealConfirmQueueTrace]
  | cons it rest ih =>
    simp only [dealConfirmQueueTrace, List.filter, isPop, List.map_cons]
    simpa using ih

/-- Witness for C8 on a concrete two-item queue (binder-free part: pops in
FIFO order). -/
theorem C8_queue_fifo_single_flight_witness :
    (dealConfirmQueueTrace [⟨1, Except.ok true⟩, ⟨2, Except.error ConfirmErr.notAllowed⟩]).filter
        isPop
      = ([⟨1, Except.ok true⟩, ⟨2, Except.error ConfirmErr.notAllowed⟩] : List QItem).map
          (fun it => QEvent.pop it.id) :=
  (C8_queue_fifo_single_flight
    [⟨1, Except.ok true⟩, ⟨2, Except.error ConfirmErr.notAllowed⟩]).1

/-! ## C9: the confirmation window handshake (`confirmWindow` /
`userConfirm`)

`confirmWindow` stores a resolver under a fresh uuid and schedules a 40 s
timeout; the timeout deletes the entry and rejects with
`"permission confirm timeout"`.  An external `confirm` signal for a stored
uuid removes the entry and resolves with the user outcome through a
wrapper that clears the timeout first (a cleared timer never fires, which
the timer map models by removal). -/

def CONFIRM_TIMEOUT_MS : Nat := 40 * 1000

/-- An entry of `confirmMap` (the confirm payload and script are irrelevant
to the claim; the deadline identifies the scheduled timeout). -/
structure ConfirmMapEntry where
  deadline : Nat
deriving DecidableEq, Repr

/-- Pending confirmations and their still-armed timeouts (uuid to fire
time). -/
structure WindowState where
  confirmMap : List (String × ConfirmMapEntry)
  timers : List (String × Nat)
deriving DecidableEq, Repr

/-- `confirmWindow`: register the entry and arm the 40 s timeout. -/
def confirmWindowOpen (st : WindowState) (uuid : String) (now : Nat) : WindowState :=
  ⟨mset st.confirmMap uuid ⟨now + CONFIRM_TIMEOUT_MS⟩,
   mset st.timers uuid (now + CONFIRM_TIMEOUT_MS)⟩

inductive WaitOutcome where
  | resolved (uc : UserConfirm)
  | timedOut
  | notFound
  | ignored
deriving DecidableEq, Repr

/-- The `userConfirm` handler: a matching entry is removed and resolved
(clearing its timeout); an unknown id is ignored for outcome type 0 and
rejected with `"confirm not found"` otherwise. -/
def userConfirmSignal (st : WindowState) (uuid : String) (uc : UserConfirm) :
    WindowState × WaitOutcome :=
  match mget st.confirmMap uuid with
  | none => (st, if uc.type = 0 then WaitOutcome.ignored else WaitOutcome.notFound)
  | some _ =>
      (⟨mdel st.confirmMap uuid, mdel st.timers uuid⟩, WaitOutcome.resolved uc)

/-- The scheduled timeout observed at time `now`: only a still-armed timer
whose deadline has arrived fires; it removes the entry and rejects with
the timeout error. -/
def timeoutFire (st : WindowState) (uuid : String) (now : Nat) :
    WindowState × Option WaitOutcome :=
  match mget st.timers uuid with
  | none => (st, none)
  | some fireAt =>
      if fireAt ≤ now then
        (⟨mdel st.confirmMap uuid, mdel st.timers uuid⟩, some WaitOutcome.timedOut)
      else (st, none)

/-- Claim C9: after a window opens, a matching confirm signal resolves the
wait with the user outcome, removes the pending entry, and clears the
timeout (so the scheduled fire is a no-op at any later time); with no
signal, the fire at or after the 40 s deadline rejects with the timeout
error and removes the pending entry. -/
theorem C9_confirm_window (st : WindowState) (uuid : String) (now t : Nat)
    (uc : UserConfirm) :
    (userConfirmSignal (confirmWindowOpen st uuid now) uuid uc
        = (⟨mdel (confirmWindowOpen st uuid now).confirmMap uuid,
            mdel (confirmWindowOpen st uuid now).timers uuid⟩, WaitOutcome.resolved uc)) ∧
    (mget (userConfirmSignal (confirmWindowOpen st uuid now) uuid uc).1.confirmMap uuid
        = none) ∧
    (mget (userConfirmSignal (confirmWindowOpen st uuid now) uuid uc).1.timers uuid
        = none) ∧
    (timeoutFire (userConfirmSignal (confirmWindowOpen st uuid now) uuid uc).1 uuid t
        = ((userConfirmSignal (confirmWindowOpen st uuid now) uuid uc).1, none)) ∧
    (now + CONFIRM_TIMEOUT_MS ≤ t →
      timeoutFire (confirmWindowOpen st uuid now) uuid t
          = (⟨mdel (confirmWindowOpen st uuid now).confirmMap uuid,
              mdel (confirmWindowOpen st uuid now).timers uuid⟩,
             some WaitOutcome.timedOut) ∧
      mget (timeoutFire (confirmWindowOpen st uuid now) uuid t).1.confirmMap uuid = none) := by
  have hopen : mget (confirmWindowOpen st uuid now).confirmMap uuid
      = some ⟨now + CONFIRM_TIMEOUT_MS⟩ := mget_mset_self _ _ _
  have hsig : userConfirmSignal (confirmWindowOpen st uuid now) uuid uc
      = (⟨mdel (confirmWindowOpen st uuid now).confirmMap uuid,
          mdel (confirmWindowOpen st uuid now).timers uuid⟩, WaitOutcome.resolved uc) := by
    simp only [userConfirmSignal, hopen]
  refine ⟨hsig, ?_, ?_, ?_, ?_⟩
  · rw [hsig]
    exact mget_mdel_self _ _
  · rw [hsig]
    exact mget_mdel_self _ _
  · rw [hsig]
    have htimer : mget (mdel (confirmWindowOpen st uuid now).timers uuid) uuid = none :=
      mget_mdel_self _ _
    simp only [timeoutFire, htimer]
  · intro hdeadline
    have htimer : mget (confirmWindowOpen st uuid now).timers uuid
        = some (now + CONFIRM_TIMEOUT_MS) := mget_mset_self _ _ _
    have hfire : timeoutFire (confirmWindowOpen st uuid now) uuid t
        = (⟨mdel (confirmWindowOpen st uuid now).confirmMap uuid,
            mdel (confirmWindowOpen st uuid now).timers uuid⟩,
           some WaitOutcome.timedOut) := by
      simp only [timeoutFire, htimer]
      rw [if_pos hdeadline]
    refine ⟨hfire, ?_⟩
    rw [hfire]
    exact mget_mdel_self _ _

/-- Witness for C9 at a concrete input: window opened at 1000 ms, signal
answered allow-once, and the no-signal fire at exactly the deadline. -/
theorem C9_confirm_window_witness :
    (userConfirmSignal (confirmWindowOpen ⟨[], []⟩ "u-1" 1000) "u-1" ⟨true, 1⟩
        = (⟨mdel (confirmWindowOpen ⟨[], []⟩ "u-1" 1000).confirmMap "u-1",
            mdel (confirmWindowOpen ⟨[], []⟩ "u-1" 1000).timers "u-1"⟩,
           WaitOutcome.resolved ⟨true, 1⟩)) ∧
    (mget (userConfirmSignal (confirmWindowOpen ⟨[], []⟩ "u-1" 1000) "u-1"
        ⟨true, 1⟩).1.confirmMap "u-1" = none) ∧
    (mget (userConfirmSignal (confirmWindowOpen ⟨[], []⟩ "u-1" 1000) "u-1"
        ⟨true, 1⟩).1.timers "u-1" = none) ∧
    (timeoutFire (userConfirmSignal (confirmWindowOpen ⟨[], []⟩ "u-1" 1000) "u-1"
        ⟨true, 1⟩).1 "u-1" 41000
        = ((userConfirmSignal (confirmWindowOpen ⟨[], []⟩ "u-1" 1000) "u-1"
            ⟨true, 1⟩).1, none)) ∧
    (timeoutFire (confirmWindowOpen ⟨[], []⟩ "u-1" 1000) "u-1" 41000
        = (⟨mdel (confirmWindowOpen ⟨[], []⟩ "u-1" 1000).confirmMap "u-1",
            mdel (confirmWindowOpen ⟨[], []⟩ "u-1" 1000).timers "u-1"⟩,
           some WaitOutcome.timedOut) ∧
      mget (timeoutFire (confirmWindowOpen ⟨[], []⟩ "u-1" 1000) "u-1"
          41000).1.confirmMap "u-1" = none) := by
  have r := C9_confirm_window ⟨[], []⟩ "u-1" 1000 41000 ⟨true, 1⟩
  exact ⟨r.1, r.2.1, r.2.2.1, r.2.2.2.1, r.2.2.2.2 (by decide)⟩

/-! ## C10: per-request cleanup (`loadendCleanUp`)

`loadendCleanUp`, invoked when the request reaches `loadend` (also after
an abort caused by channel disconnection), deletes the redirect URL, both
directions of the markerId/requestId binding, the headers-received
snapshot, and the header-rule entry for the markerId. -/

/-- An entry of `headersReceivedMap`. -/
structure HeadersSnapshot where
  responseHeaders : Option (List HttpHeader)
  statusCode : Option Nat
deriving DecidableEq, Repr

/-- The four process-wide correlation maps touched by the cleanup. -/
structure GmXhrMaps where
  scXhrRequests : List (String × String)
  redirectedUrls : List (String × String)
  headersReceivedMap : List (String × HeadersSnapshot)
  headerModifierMap : List (String × HeaderModifierEntry)
deriving DecidableEq, Repr

/-- `loadendCleanUp` for a markerId; the reverse direction of the binding
is deleted only when a truthy requestId is bound. -/
def loadendCleanUp (st : GmXhrMaps) (markerId : String) : GmXhrMaps :=
  let sc1 :=
    match mget st.scXhrRequests markerId with
    | some reqId => if reqId ≠ "" then mdel st.scXhrRequests reqId else st.scXhrRequests
    | none => st.scXhrRequests
  ⟨mdel sc1 markerId, mdel st.redirectedUrls markerId,
    mdel st.headersReceivedMap markerId, mdel st.headerModifierMap markerId⟩

/-- Claim C10: under the bidirectional-consistency invariant maintained by
`setReqId` (every key bound to the markerId is the nonempty requestId the
markerId is bound to), the cleanup leaves no entry for the markerId in any
of the four maps — neither as a key nor as a bound value of the id map. -/
theorem C10_cleanup_purges (st : GmXhrMaps) (markerId : String)
    (hcons : ∀ k, mget st.scXhrRequests k = some markerId →
        k ≠ "" ∧ mget st.scXhrRequests markerId = some k) :
    mget (loadendCleanUp st markerId).redirectedUrls markerId = none ∧
    mget (loadendCleanUp st markerId).headersReceivedMap markerId = none ∧
    mget (loadendCleanUp st markerId).headerModifierMap markerId = none ∧
    mget (loadendCleanUp st markerId).scXhrRequests markerId = none ∧
    (∀ k, mget (loadendCleanUp st markerId).scXhrRequests k ≠ some markerId) := by
  refine ⟨mget_mdel_self _ _, mget_mdel_self _ _, mget_mdel_self _ _,
    mget_mdel_self _ _, ?_⟩
  intro k hk
  by_cases hkm : k = markerId
  · subst hkm
    have hnone : mget (loadendCleanUp st k).scXhrRequests k = none := mget_mdel_self _ _
    rw [hnone] at hk
    exact absurd hk (by simp)
  · cases hm : mget st.scXhrRequests markerId with
    | none =>
      have hsc : (loadendCleanUp st markerId).scXhrRequests
          = mdel st.scXhrRequests markerId := by
        simp only [loadendCleanUp, hm]
      rw [hsc, mget_mdel_ne _ _ _ hkm] at hk
      obtain ⟨-, hrev⟩ := hcons k hk
      rw [hm] at hrev
      exact absurd hrev (by simp)
    | some reqId =>
      by_cases hre : reqId = ""
      · subst hre
        have hsc : (loadendCleanUp st markerId).scXhrRequests
            = mdel st.scXhrRequests markerId := by
          simp only [loadendCleanUp, hm, ne_eq, not_true_eq_false, if_false]
        rw [hsc, mget_mdel_ne _ _ _ hkm] at hk
        obtain ⟨hne, hrev⟩ := hcons k hk
        rw [hm] at hrev
        have hke : "" = k := by
          injection hrev
        exact hne hke.symm
      · have hsc : (loadendCleanUp st markerId).scXhrRequests
            = mdel (mdel st.scXhrRequests reqId) markerId := by
          simp only [loadendCleanUp, hm, ne_eq, hre, not_false_eq_true, if_true]
        rw [hsc, mget_mdel_ne _ _ _ hkm] at hk
        by_cases hkr : k = reqId
        · subst hkr
          rw [mget_mdel_self] at hk
          exact absurd hk (by simp)
        · rw [mget_mdel_ne _ _ _ hkr] at hk
          obtain ⟨-, hrev⟩ := hcons k hk
          rw [hm] at hrev
          have hke : reqId = k := by
            injection hrev
          exact hkr hke.symm

/-- Concrete map state for the C10 witness: marker `M1` bound to request
id `77`, with a redirect URL, a headers snapshot, and a header rule. -/
def c10State : GmXhrMaps :=
  ⟨[("M1", "77"), ("77", "M1")], [("M1", "https://after.test/")],
   [("M1", ⟨none, some 301⟩)],
   [("M1", ⟨⟨10002, ⟨"modifyHeaders", []⟩, 1, ⟨["xmlhttprequest"], "https://x.test/", ["get"], [-1]⟩⟩, true⟩)]⟩

/-- Witness for C10 at the concrete state (binder-free part: the markerId
key is gone from all four maps). -/
theorem C10_cleanup_purges_witness :
    mget (loadendCleanUp c10State "M1").redirectedUrls "M1" = none ∧
    mget (loadendCleanUp c10State "M1").headersReceivedMap "M1" = none ∧
    mget (loadendCleanUp c10State "M1").headerModifierMap "M1" = none ∧
    mget (loadendCleanUp c10State "M1").scXhrRequests "M1" = none := by
  have hcons : ∀ k, mget c10State.scXhrRequests k = some "M1" →
      k ≠ "" ∧ mget c10State.scXhrRequests "M1" = some k := by
    intro k h
    by_cases h1 : k = "77"
    · subst h1
      exact ⟨by decide, by decide⟩
    · by_cases h2 : k = "M1"
      · subst h2
        exact absurd h (by decide)
      · have hA : ("M1" : String) = k ↔ False := ⟨fun hh => h2 hh.symm, False.elim⟩
        have hB : ("77" : String) = k ↔ False := ⟨fun hh => h1 hh.symm, False.elim⟩
        simp [c10State, mget, hA, hB] at h
  have r := C10_cleanup_purges c10State "M1" hcons
  exact ⟨r.1, r.2.1, r.2.2.1, r.2.2.2.1⟩

end SC
